import Mathlib

/-!
Verification of `integration/nwo/configblock.go` (Hyperledger Fabric test
network helpers for channel configuration updates).

Bytes are modelled as `List Nat`.  The protobuf message schemas
(`etcdraft.Metadata`, `etcdraft.Consenter`, `orderer.ConsensusType`,
`common.Config` and friends) and the marshal/unmarshal functions live
outside the analysed source file, so they are modelled from the spec's
wire-format description: a stable binary encoding of length-prefixed
nested records that round-trips byte-exactly.
-/

namespace ConfigBlock

/-- Fuel-indexed worker for `varint`; the fuel only bounds the recursion
depth and `varint` always supplies enough of it. -/
def varintAux : Nat → Nat → List Nat
  | 0, n => [n]
  | fuel + 1, n => if n < 128 then [n] else (n % 128 + 128) :: varintAux fuel (n / 128)

/-- Modelled from the spec: base-128 variable-length encoding of a natural
number, the length prefix used by the length-prefixed record encoding. -/
def varint (n : Nat) : List Nat := varintAux n n

theorem varintAux_irrel (n : Nat) : ∀ fuel fuel' : Nat, n ≤ fuel → n ≤ fuel' →
    varintAux fuel n = varintAux fuel' n := by
  induction n using Nat.strong_induction_on with
  | _ n ih =>
    intro fuel fuel' hf hf'
    match fuel, fuel' with
    | 0, 0 => rfl
    | 0, f' + 1 =>
      have hn : n = 0 := by omega
      subst hn
      simp [varintAux]
    | f + 1, 0 =>
      have hn : n = 0 := by omega
      subst hn
      simp [varintAux]
    | f + 1, f' + 1 =>
      simp only [varintAux]
      by_cases hc : n < 128
      · rw [if_pos hc, if_pos hc]
      · rw [if_neg hc, if_neg hc]
        have hlt : n / 128 < n := Nat.div_lt_self (by omega) (by omega)
        rw [ih (n / 128) hlt f f' (by omega) (by omega)]

theorem varint_eq (n : Nat) :
    varint n = if n < 128 then [n] else (n % 128 + 128) :: varint (n / 128) := by
  by_cases hc : n < 128
  · rw [if_pos hc, varint]
    cases n with
    | zero => rfl
    | succ m => rw [varintAux, if_pos hc]
  · rw [if_neg hc, varint]
    cases n with
    | zero => exact absurd (by omega) hc
    | succ m =>
      rw [varintAux, if_neg hc, varint]
      have hlt : (m + 1) / 128 < m + 1 := Nat.div_lt_self (by omega) (by omega)
      rw [varintAux_irrel ((m + 1) / 128) m ((m + 1) / 128) (by omega) le_rfl]

/-- Modelled from the spec: decoder for `varint`, returning the decoded
number and the remaining bytes. -/
def parseVarint : List Nat → Option (Nat × List Nat)
  | [] => none
  | b :: rest =>
    if b < 128 then some (b, rest)
    else
      match parseVarint rest with
      | none => none
      | some (n, rest') => some ((b - 128) + 128 * n, rest')

/-- Modelled from the spec: a length-prefixed byte field. -/
def encodeBytes (b : List Nat) : List Nat :=
  varint b.length ++ b

/-- Modelled from the spec: decoder for a length-prefixed byte field. -/
def parseLenBytes (l : List Nat) : Option (List Nat × List Nat) :=
  match parseVarint l with
  | none => none
  | some (n, rest) => if n ≤ rest.length then some (rest.take n, rest.drop n) else none

theorem varint_ne_nil (n : Nat) : varint n ≠ [] := by
  rw [varint_eq]
  split <;> simp

theorem parseVarint_varint (n : Nat) :
    ∀ rest : List Nat, parseVarint (varint n ++ rest) = some (n, rest) := by
  induction n using Nat.strong_induction_on with
  | _ n ih =>
    intro rest
    rw [varint_eq]
    split
    · simpa [parseVarint] using by omega
    · rename_i h
      have hdiv : n / 128 < n := Nat.div_lt_self (by omega) (by omega)
      simp only [List.cons_append, parseVarint, List.append_eq]
      rw [if_neg (by omega), ih (n / 128) hdiv rest]
      have hmd := Nat.mod_add_div n 128
      simp
      omega

theorem parseLenBytes_encodeBytes (b rest : List Nat) :
    parseLenBytes (encodeBytes b ++ rest) = some (b, rest) := by
  simp only [parseLenBytes, encodeBytes, List.append_assoc, parseVarint_varint]
  rw [if_pos (by simp)]
  simp [List.take_append, List.drop_append]

/-- Consenter record of the etcdraft metadata (`etcdraft.Consenter`):
host, port, client-facing TLS certificate bytes, server-facing TLS
certificate bytes. -/
structure Consenter where
  host : List Nat
  port : Nat
  clientTlsCert : List Nat
  serverTlsCert : List Nat
  deriving DecidableEq, Repr

/-- Modelled from the spec: wire encoding of one consenter record as
length-prefixed fields (host, port, client cert, server cert). -/
def marshalConsenter (c : Consenter) : List Nat :=
  encodeBytes c.host ++ varint c.port ++ encodeBytes c.clientTlsCert ++ encodeBytes c.serverTlsCert

/-- Modelled from the spec: decoder for one consenter record occupying the
whole buffer. -/
def parseConsenter (l : List Nat) : Option Consenter :=
  match parseLenBytes l with
  | none => none
  | some (host, r1) =>
    match parseVarint r1 with
    | none => none
    | some (port, r2) =>
      match parseLenBytes r2 with
      | none => none
      | some (ccert, r3) =>
        match parseLenBytes r3 with
        | none => none
        | some (scert, r4) =>
          match r4 with
          | [] => some ⟨host, port, ccert, scert⟩
          | _ :: _ => none

theorem parseConsenter_marshalConsenter (c : Consenter) :
    parseConsenter (marshalConsenter c) = some c := by
  have h1 : marshalConsenter c =
      encodeBytes c.host ++ (varint c.port ++ (encodeBytes c.clientTlsCert ++
        (encodeBytes c.serverTlsCert ++ []))) := by
    simp [marshalConsenter]
  rw [parseConsenter, h1]
  simp only [parseLenBytes_encodeBytes, parseVarint_varint]

/-- Modelled from the spec: the metadata payload is the repeated list of
length-prefixed consenter records (`etcdraft.Metadata.Consenters`). -/
def marshalMetadata : List Consenter → List Nat
  | [] => []
  | c :: rest => encodeBytes (marshalConsenter c) ++ marshalMetadata rest

/-- Modelled from the spec: fuel-indexed decoder for the repeated
consenter-record list. -/
def parseConsenters : Nat → List Nat → Option (List Consenter)
  | _, [] => some []
  | 0, _ :: _ => none
  | fuel + 1, b :: rest =>
    match parseLenBytes (b :: rest) with
    | none => none
    | some (body, rest') =>
      match parseConsenter body with
      | none => none
      | some c =>
        match parseConsenters fuel rest' with
        | none => none
        | some cs => some (c :: cs)

/-- Modelled from the spec: decoder for the metadata payload.  The fuel
`l.length` suffices because every record consumes at least one byte. -/
def unmarshalMetadata (l : List Nat) : Option (List Consenter) :=
  parseConsenters l.length l

theorem parseConsenters_marshalMetadata (cs : List Consenter) :
    ∀ fuel : Nat, (marshalMetadata cs).length ≤ fuel →
      parseConsenters fuel (marshalMetadata cs) = some cs := by
  induction cs with
  | nil => intro fuel _; simp [marshalMetadata, parseConsenters]
  | cons c rest ih =>
    intro fuel hfuel
    have hne : encodeBytes (marshalConsenter c) ≠ [] := by
      simp only [encodeBytes]
      intro hcontra
      exact varint_ne_nil _ (List.append_eq_nil.mp hcontra).1
    obtain ⟨hd, tl, hhd⟩ := List.exists_cons_of_ne_nil hne
    have hshape : marshalMetadata (c :: rest) = hd :: (tl ++ marshalMetadata rest) := by
      simp [marshalMetadata, hhd]
    have hlen : (marshalMetadata (c :: rest)).length =
        tl.length + 1 + (marshalMetadata rest).length := by
      rw [hshape]; simp; omega
    match fuel with
    | 0 => rw [hlen] at hfuel; omega
    | fuel + 1 =>
      rw [hshape, parseConsenters]
      have hparse : parseLenBytes (hd :: (tl ++ marshalMetadata rest)) =
          some (marshalConsenter c, marshalMetadata rest) := by
        rw [show hd :: (tl ++ marshalMetadata rest) =
          encodeBytes (marshalConsenter c) ++ marshalMetadata rest by simp [hhd]]
        exact parseLenBytes_encodeBytes _ _
      simp only [hparse, parseConsenter_marshalConsenter,
        ih fuel (by rw [hlen] at hfuel; omega)]

theorem unmarshalMetadata_marshalMetadata (cs : List Consenter) :
    unmarshalMetadata (marshalMetadata cs) = some cs :=
  parseConsenters_marshalMetadata cs _ le_rfl

/-- The filtering loop of `RemoveConsenter` (configblock.go lines 228-234):
a record is skipped when its client-facing or server-facing TLS certificate
equals the given certificate byte-for-byte; the survivors are appended in
iteration order. -/
def removeMatching (certificate : List Nat) : List Consenter → List Consenter
  | [] => []
  | consenter :: rest =>
    if consenter.clientTlsCert = certificate ∨ consenter.serverTlsCert = certificate then
      removeMatching certificate rest
    else
      consenter :: removeMatching certificate rest

/-- The metadata mutator of `AddConsenter` (configblock.go lines 209-218):
unmarshal, append the new consenter, re-marshal.  A failed unmarshal aborts
the flow (modelled as `none`). -/
def addConsenterMutator (consenter : Consenter) (originalMetadata : List Nat) :
    Option (List Nat) :=
  match unmarshalMetadata originalMetadata with
  | none => none
  | some consenters => some (marshalMetadata (consenters ++ [consenter]))

/-- The metadata mutator of `RemoveConsenter` (configblock.go lines 223-240):
unmarshal, drop every record matching the certificate, re-marshal.  A failed
unmarshal aborts the flow (modelled as `none`). -/
def removeConsenterMutator (certificate : List Nat) (originalMetadata : List Nat) :
    Option (List Nat) :=
  match unmarshalMetadata originalMetadata with
  | none => none
  | some consenters => some (marshalMetadata (removeMatching certificate consenters))

theorem removeMatching_eq_filter (certificate : List Nat) (cs : List Consenter) :
    removeMatching certificate cs =
      cs.filter fun c => c.clientTlsCert ≠ certificate ∧ c.serverTlsCert ≠ certificate := by
  induction cs with
  | nil => rfl
  | cons c rest ih =>
    rw [removeMatching, List.filter_cons]
    by_cases hc : c.clientTlsCert = certificate ∨ c.serverTlsCert = certificate
    · rw [if_pos hc, ih, if_neg (by simpa using by tauto)]
    · rw [if_neg hc, ih, if_pos (by simpa using by tauto)]

theorem removeMatching_append (certificate : List Nat) (xs ys : List Consenter) :
    removeMatching certificate (xs ++ ys) =
      removeMatching certificate xs ++ removeMatching certificate ys := by
  simp [removeMatching_eq_filter]

theorem removeMatching_of_no_match (certificate : List Nat) (cs : List Consenter)
    (h : ∀ c ∈ cs, c.clientTlsCert ≠ certificate ∧ c.serverTlsCert ≠ certificate) :
    removeMatching certificate cs = cs := by
  rw [removeMatching_eq_filter]
  exact List.filter_eq_self.mpr fun c hc => by simpa using h c hc

/-- Header type tag for configuration updates (`common.HeaderType_CONFIG_UPDATE`).
Modelled from the spec: the envelope header carries a type tag distinguishing
configuration-update transactions. -/
def HeaderType_CONFIG_UPDATE : Nat := 2

/-- A signed envelope: header fields plus the serialized payload and the
ordered list of (identity, signature) pairs.  Signer identities are `Nat`. -/
structure SignedEnvelope where
  headerType : Nat
  channelId : String
  msgVersion : Nat
  epoch : Nat
  payload : List Nat
  signatures : List (Nat × List Nat)
  deriving DecidableEq, Repr

/-- Modelled from the spec: `utils.CreateSignedEnvelope` (not under the
analysed source) stamps the header fields and, when a local signer is
present, produces the first signature from it over the payload; with no
local signer the envelope starts with no signature.  `signFn` is the
consumed signing capability `Sign(identity, payload)`. -/
def createSignedEnvelope (txType : Nat) (channelId : String)
    (signFn : Nat → List Nat → List Nat) (localSigner : Option Nat)
    (payload : List Nat) (msgVersion epoch : Nat) : SignedEnvelope :=
  { headerType := txType
    channelId := channelId
    msgVersion := msgVersion
    epoch := epoch
    payload := payload
    signatures :=
      match localSigner with
      | some s => [(s, signFn s payload)]
      | none => [] }

/-- The envelope built by `UpdateConfig`/`UpdateOrdererConfig`
(configblock.go lines 83-92 and 133-142): header type CONFIG_UPDATE, the
channel id, message version 0, epoch 0, and a nil local signer. -/
def updateConfigSignedEnvelope (signFn : Nat → List Nat → List Nat)
    (channel : String) (configUpdate : List Nat) : SignedEnvelope :=
  createSignedEnvelope HeaderType_CONFIG_UPDATE channel signFn none configUpdate 0 0

/-- Externally visible steps of the update flow, in execution order. -/
inductive FlowEvent where
  | signRequest (signer : Nat)
  | fetchBaseline
  | submit
  | awaitCommitStep
  deriving DecidableEq, Repr

/-- The additional-signers loop of `UpdateConfig`/`UpdateOrdererConfig`
(configblock.go lines 98-102 and 148-152): each signer is asked in listed
order; a failing signing session aborts the flow (the remaining steps never
run). -/
def runAdditionalSigners (signOk : Nat → Bool) : List Nat → List FlowEvent × Bool
  | [] => ([], true)
  | signer :: rest =>
    if signOk signer then
      let result := runAdditionalSigners signOk rest
      (FlowEvent.signRequest signer :: result.1, result.2)
    else
      ([FlowEvent.signRequest signer], false)

/-- The event trace of `UpdateConfig`/`UpdateOrdererConfig` after the
envelope is written: sign sessions, then (only if all succeeded) the
baseline fetch, the submission, and the commit wait (configblock.go lines
98-118 and 148-168). -/
def updateConfigFlowEvents (signOk : Nat → Bool) (additionalSigners : List Nat) :
    List FlowEvent :=
  let result := runAdditionalSigners signOk additionalSigners
  if result.2 then
    result.1 ++ [FlowEvent.fetchBaseline, FlowEvent.submit, FlowEvent.awaitCommitStep]
  else
    result.1

theorem runAdditionalSigners_all_ok (signOk : Nat → Bool) (signers : List Nat)
    (h : ∀ s ∈ signers, signOk s = true) :
    runAdditionalSigners signOk signers = (signers.map FlowEvent.signRequest, true) := by
  induction signers with
  | nil => rfl
  | cons s rest ih =>
    rw [runAdditionalSigners, if_pos (h s (by simp)),
      ih fun x hx => h x (by simp [hx])]
    simp

theorem runAdditionalSigners_events (signOk : Nat → Bool) (signers : List Nat) :
    ∀ e ∈ (runAdditionalSigners signOk signers).1, ∃ s, e = FlowEvent.signRequest s := by
  induction signers with
  | nil => simp [runAdditionalSigners]
  | cons s rest ih =>
    rw [runAdditionalSigners]
    by_cases hc : signOk s
    · rw [if_pos hc]
      intro e he
      rcases List.mem_cons.mp he with h1 | h1
      · exact ⟨s, h1⟩
      · exact ih e h1
    · rw [if_neg hc]
      intro e he
      exact ⟨s, by simpa using he⟩

theorem runAdditionalSigners_fail (signOk : Nat → Bool) (signers : List Nat)
    (h : ∃ s ∈ signers, signOk s = false) :
    (runAdditionalSigners signOk signers).2 = false := by
  induction signers with
  | nil => simp at h
  | cons s rest ih =>
    rw [runAdditionalSigners]
    by_cases hc : signOk s
    · rw [if_pos hc]
      rcases h with ⟨x, hx, hxf⟩
      rcases List.mem_cons.mp hx with h1 | h1
      · rw [h1] at hxf; rw [hxf] at hc; simp at hc
      · exact ih ⟨x, h1, hxf⟩
    · rw [if_neg hc]

/-- Block header of a fetched block (`common.BlockHeader`).  Modelled from
the spec: the block carries an identifying number (version/sequence) and
content that the watcher never inspects. -/
structure BlockHeader where
  number : Nat
  previousHash : List Nat
  dataHash : List Nat
  deriving DecidableEq, Repr

/-- A fetched config block: header plus opaque content. -/
structure Block where
  header : BlockHeader
  data : List (List Nat)
  deriving DecidableEq, Repr

/-- `CurrentConfigBlockNumber` (configblock.go lines 174-194): the block
number read from the header of the fetched config block. -/
def currentConfigBlockNumber (block : Block) : Nat :=
  block.header.number

/-- The commit wait of `UpdateConfig`/`UpdateOrdererConfig` (configblock.go
lines 117-118 and 167-168): repeatedly observe the current config block and
succeed the first time its number is strictly greater than the baseline.
`observations` is the sequence of fetched blocks over time. -/
def awaitConfigBlockPast (baseline : Nat) : List Block → Option Nat
  | [] => none
  | block :: rest =>
    if baseline < currentConfigBlockNumber block then
      some (currentConfigBlockNumber block)
    else
      awaitConfigBlockPast baseline rest

/-- The commit-confirmation step with the baseline taken from the config
block fetched before submission (configblock.go lines 104-105, 117-118). -/
def updateConfigCommitConfirm (baselineBlock : Block) (observations : List Block) :
    Option Nat :=
  awaitConfigBlockPast (currentConfigBlockNumber baselineBlock) observations

/-- First-match lookup in a string-keyed association list, modelling a Go
map access. -/
def lookupStr {α : Type} : List (String × α) → String → Option α
  | [], _ => none
  | (k, v) :: rest, key => if k = key then some v else lookupStr rest key

/-- Update (or insert) a key in a string-keyed association list, modelling a
Go map assignment. -/
def setStr {α : Type} : List (String × α) → String → α → List (String × α)
  | [], key, v => [(key, v)]
  | (k, v') :: rest, key, v =>
    if k = key then (key, v) :: rest else (k, v') :: setStr rest key v

theorem lookupStr_setStr_same {α : Type} (l : List (String × α)) (key : String) (v : α) :
    lookupStr (setStr l key v) key = some v := by
  induction l with
  | nil => simp [setStr, lookupStr]
  | cons p rest ih =>
    obtain ⟨k, v'⟩ := p
    rw [setStr]
    by_cases hc : k = key
    · rw [if_pos hc]; simp [lookupStr]
    · rw [if_neg hc, lookupStr, if_neg hc, ih]

theorem lookupStr_setStr_other {α : Type} (l : List (String × α)) (key other : String)
    (v : α) (h : other ≠ key) :
    lookupStr (setStr l key v) other = lookupStr l other := by
  induction l with
  | nil =>
    have hko : ¬ key = other := fun hc => h hc.symm
    simp [setStr, lookupStr, hko]
  | cons p rest ih =>
    obtain ⟨k, v'⟩ := p
    rw [setStr]
    by_cases hc : k = key
    · subst hc
      rw [if_pos rfl, lookupStr, lookupStr,
        if_neg (fun hco => h hco.symm), if_neg (fun hco => h hco.symm)]
    · rw [if_neg hc, lookupStr, lookupStr, ih]

/-- A configuration value (`common.ConfigValue`): version, payload bytes and
modification policy.  Modelled from the spec's data model. -/
structure ConfigValue where
  version : Nat
  value : List Nat
  modPolicy : String
  deriving DecidableEq, Repr

/-- A configuration policy (`common.ConfigPolicy`): version, policy bytes
and modification policy.  Modelled from the spec's data model. -/
structure ConfigPolicy where
  version : Nat
  policy : List Nat
  modPolicy : String
  deriving DecidableEq, Repr

/-- A configuration group (`common.ConfigGroup`): version, child groups,
values, policies and modification policy.  Modelled from the spec's data
model. -/
inductive ConfigGroup where
  | mk (version : Nat)
       (groups : List (String × ConfigGroup))
       (values : List (String × ConfigValue))
       (policies : List (String × ConfigPolicy))
       (modPolicy : String)

def ConfigGroup.version : ConfigGroup → Nat
  | .mk v _ _ _ _ => v

def ConfigGroup.groups : ConfigGroup → List (String × ConfigGroup)
  | .mk _ g _ _ _ => g

def ConfigGroup.values : ConfigGroup → List (String × ConfigValue)
  | .mk _ _ vs _ _ => vs

def ConfigGroup.policies : ConfigGroup → List (String × ConfigPolicy)
  | .mk _ _ _ ps _ => ps

def ConfigGroup.modPolicy : ConfigGroup → String
  | .mk _ _ _ _ mp => mp

/-- Replace one value entry of a group, keeping everything else. -/
def ConfigGroup.setValue : ConfigGroup → String → ConfigValue → ConfigGroup
  | .mk ver gs vs ps mp, key, v => .mk ver gs (setStr vs key v) ps mp

/-- Replace one child-group entry of a group, keeping everything else. -/
def ConfigGroup.setGroup : ConfigGroup → String → ConfigGroup → ConfigGroup
  | .mk ver gs vs ps mp, key, g => .mk ver (setStr gs key g) vs ps mp

/-- A channel configuration snapshot (`common.Config`): sequence number and
root channel group.  Modelled from the spec's data model. -/
structure Config where
  sequence : Nat
  channelGroup : ConfigGroup

/-- The consensus-type value (`orderer.ConsensusType`): consensus
implementation name and its opaque consensus metadata bytes. -/
structure ConsensusTypeValue where
  typeName : List Nat
  metadata : List Nat
  deriving DecidableEq, Repr

/-- Modelled from the spec: wire encoding of the consensus-type value as
length-prefixed fields. -/
def marshalConsensusType (v : ConsensusTypeValue) : List Nat :=
  encodeBytes v.typeName ++ encodeBytes v.metadata

/-- Modelled from the spec: decoder for the consensus-type value. -/
def unmarshalConsensusType (l : List Nat) : Option ConsensusTypeValue :=
  match parseLenBytes l with
  | none => none
  | some (t, r1) =>
    match parseLenBytes r1 with
    | none => none
    | some (m, r2) =>
      match r2 with
      | [] => some ⟨t, m⟩
      | _ :: _ => none

theorem unmarshalConsensusType_marshalConsensusType (v : ConsensusTypeValue) :
    unmarshalConsensusType (marshalConsensusType v) = some v := by
  rw [unmarshalConsensusType,
    show marshalConsensusType v = encodeBytes v.typeName ++ (encodeBytes v.metadata ++ [])
      by simp [marshalConsensusType]]
  simp only [parseLenBytes_encodeBytes]

/-- `UpdateConsensusMetadata` (configblock.go lines 247-263) up to the call
of `UpdateOrdererConfig`: fetch the config, clone it, decode the Orderer
group's ConsensusType value, run the metadata mutator on its metadata,
re-encode it into a fresh value with ModPolicy "Admins" placed in the clone,
and hand the pair (current snapshot, mutated clone) to the diff-and-submit
flow.  Any failing lookup or decode aborts (`none`); the mutator itself
returns `none` when its own decode fails. -/
def updateConsensusMetadata (config : Config)
    (mutateMetadata : List Nat → Option (List Nat)) : Option (Config × Config) :=
  match lookupStr config.channelGroup.groups "Orderer" with
  | none => none
  | some ordererGroup =>
    match lookupStr ordererGroup.values "ConsensusType" with
    | none => none
    | some consensusTypeConfigValue =>
      match unmarshalConsensusType consensusTypeConfigValue.value with
      | none => none
      | some consensusTypeValue =>
        match mutateMetadata consensusTypeValue.metadata with
        | none => none
        | some newMetadata =>
          let newConsensusTypeValue : ConsensusTypeValue :=
            { consensusTypeValue with metadata := newMetadata }
          let newConfigValue : ConfigValue :=
            { version := 0
              value := marshalConsensusType newConsensusTypeValue
              modPolicy := "Admins" }
          let updatedConfig : Config :=
            { config with
                channelGroup := config.channelGroup.setGroup "Orderer"
                  (ordererGroup.setValue "ConsensusType" newConfigValue) }
          some (config, updatedConfig)

/-- The whole `UpdateConsensusMetadata` flow including the submission steps
of `UpdateOrdererConfig`: when the mutation fails nothing is signed or
submitted and no tree is handed on. -/
def updateConsensusMetadataFlow (config : Config)
    (mutateMetadata : List Nat → Option (List Nat)) (signOk : Nat → Bool)
    (additionalSigners : List Nat) : List FlowEvent × Option (Config × Config) :=
  match updateConsensusMetadata config mutateMetadata with
  | none => ([], none)
  | some trees => (updateConfigFlowEvents signOk additionalSigners, some trees)

/-! ### Claim theorems -/

/-- C1: for every metadata byte-string that decodes to a consenter list and
every certificate byte-string, the remove-consenter mutator returns metadata
whose consenter list contains exactly the original records whose
client-facing and server-facing TLS certificates both differ byte-for-byte
from the given certificate, in their original relative order; records
matching on either certificate are removed. -/
theorem removeConsenter_keeps_exactly_nonmatching
    (bs certificate : List Nat) (cs : List Consenter)
    (hdec : unmarshalMetadata bs = some cs) :
    ∃ out, removeConsenterMutator certificate bs = some out ∧
      unmarshalMetadata out =
        some (cs.filter fun c =>
          c.clientTlsCert ≠ certificate ∧ c.serverTlsCert ≠ certificate) := by
  refine ⟨marshalMetadata (removeMatching certificate cs), ?_, ?_⟩
  · rw [removeConsenterMutator, hdec]
  · rw [unmarshalMetadata_marshalMetadata, removeMatching_eq_filter]

theorem removeConsenter_keeps_exactly_nonmatching_witness :
    unmarshalMetadata
        (marshalMetadata [⟨[104, 48], 7050, [10, 1], [20, 1]⟩,
          ⟨[104, 49], 7051, [10, 2], [20, 2]⟩]) =
      some [⟨[104, 48], 7050, [10, 1], [20, 1]⟩, ⟨[104, 49], 7051, [10, 2], [20, 2]⟩] ∧
    ∃ out,
      removeConsenterMutator [10, 2]
          (marshalMetadata [⟨[104, 48], 7050, [10, 1], [20, 1]⟩,
            ⟨[104, 49], 7051, [10, 2], [20, 2]⟩]) = some out ∧
      unmarshalMetadata out =
        some (([⟨[104, 48], 7050, [10, 1], [20, 1]⟩,
            ⟨[104, 49], 7051, [10, 2], [20, 2]⟩] : List Consenter).filter fun c =>
          c.clientTlsCert ≠ [10, 2] ∧ c.serverTlsCert ≠ [10, 2]) :=
  ⟨by decide, removeConsenter_keeps_exactly_nonmatching _ [10, 2] _ (by decide)⟩

/-- C2: for every metadata byte-string that decodes to a consenter list in
which no record's client-facing or server-facing certificate equals the
given certificate, the remove-consenter mutator returns metadata
byte-identical to re-encoding the decoded input: no record is dropped and no
error is raised. -/
theorem removeConsenter_absent_cert_noop
    (bs certificate : List Nat) (cs : List Consenter)
    (hdec : unmarshalMetadata bs = some cs)
    (habs : ∀ c ∈ cs, c.clientTlsCert ≠ certificate ∧ c.serverTlsCert ≠ certificate) :
    removeConsenterMutator certificate bs = some (marshalMetadata cs) := by
  rw [removeConsenterMutator, hdec]
  show some (marshalMetadata (removeMatching certificate cs)) = some (marshalMetadata cs)
  rw [removeMatching_of_no_match certificate cs habs]

theorem removeConsenter_absent_cert_noop_witness :
    unmarshalMetadata (marshalMetadata [⟨[104, 48], 7050, [10, 1], [20, 1]⟩]) =
      some [⟨[104, 48], 7050, [10, 1], [20, 1]⟩] ∧
    removeConsenterMutator [99]
        (marshalMetadata [⟨[104, 48], 7050, [10, 1], [20, 1]⟩]) =
      some (marshalMetadata [⟨[104, 48], 7050, [10, 1], [20, 1]⟩]) :=
  ⟨by decide, removeConsenter_absent_cert_noop _ [99] _ (by decide) (by decide)⟩

/-- C3: for a metadata payload decoding to consenter list `[A, B]` with
distinct certificates, the add-consenter mutator for `C` yields metadata
decoding to `[A, B, C]` (appended at the end), and subsequently the
remove-consenter mutator with `B`'s certificate yields metadata decoding to
`[A, C]`. -/
theorem addThenRemove_scenario (bs : List Nat) (A B C : Consenter)
    (hdec : unmarshalMetadata bs = some [A, B])
    (h1 : A.clientTlsCert ≠ B.clientTlsCert) (h2 : A.serverTlsCert ≠ B.clientTlsCert)
    (h3 : C.clientTlsCert ≠ B.clientTlsCert) (h4 : C.serverTlsCert ≠ B.clientTlsCert) :
    ∃ bs1 bs2,
      addConsenterMutator C bs = some bs1 ∧
      unmarshalMetadata bs1 = some [A, B, C] ∧
      removeConsenterMutator B.clientTlsCert bs1 = some bs2 ∧
      unmarshalMetadata bs2 = some [A, C] := by
  refine ⟨marshalMetadata [A, B, C], marshalMetadata [A, C], ?_, ?_, ?_, ?_⟩
  · rw [addConsenterMutator, hdec]
    rfl
  · exact unmarshalMetadata_marshalMetadata _
  · rw [removeConsenterMutator, unmarshalMetadata_marshalMetadata]
    show some (marshalMetadata (removeMatching B.clientTlsCert [A, B, C])) =
      some (marshalMetadata [A, C])
    rw [removeMatching, if_neg (not_or.mpr ⟨h1, h2⟩),
      removeMatching, if_pos (Or.inl rfl),
      removeMatching, if_neg (not_or.mpr ⟨h3, h4⟩), removeMatching]
  · exact unmarshalMetadata_marshalMetadata _

theorem addThenRemove_scenario_witness :
    unmarshalMetadata
        (marshalMetadata [⟨[104, 48], 7050, [10, 1], [20, 1]⟩,
          ⟨[104, 49], 7051, [10, 2], [20, 2]⟩]) =
      some [⟨[104, 48], 7050, [10, 1], [20, 1]⟩, ⟨[104, 49], 7051, [10, 2], [20, 2]⟩] ∧
    ∃ bs1 bs2,
      addConsenterMutator ⟨[104, 50], 7052, [10, 3], [20, 3]⟩
          (marshalMetadata [⟨[104, 48], 7050, [10, 1], [20, 1]⟩,
            ⟨[104, 49], 7051, [10, 2], [20, 2]⟩]) = some bs1 ∧
      unmarshalMetadata bs1 =
        some [⟨[104, 48], 7050, [10, 1], [20, 1]⟩, ⟨[104, 49], 7051, [10, 2], [20, 2]⟩,
          ⟨[104, 50], 7052, [10, 3], [20, 3]⟩] ∧
      removeConsenterMutator (Consenter.clientTlsCert ⟨[104, 49], 7051, [10, 2], [20, 2]⟩) bs1 =
        some bs2 ∧
      unmarshalMetadata bs2 =
        some [⟨[104, 48], 7050, [10, 1], [20, 1]⟩, ⟨[104, 50], 7052, [10, 3], [20, 3]⟩] :=
  ⟨by decide, addThenRemove_scenario _ _ _ _ (by decide)
    (by decide) (by decide) (by decide) (by decide)⟩

/-- C4: for every decodable metadata byte-string whose existing consenter
records match neither certificate of the new consenter, adding that
consenter and then removing by one of its certificates returns metadata that
decodes back to the original consenter list. -/
theorem addThenRemove_roundtrip (bs certificate : List Nat)
    (cs : List Consenter) (consenter : Consenter)
    (hdec : unmarshalMetadata bs = some cs)
    (hcert : certificate = consenter.clientTlsCert ∨ certificate = consenter.serverTlsCert)
    (hdisj : ∀ c ∈ cs,
      c.clientTlsCert ≠ consenter.clientTlsCert ∧
      c.serverTlsCert ≠ consenter.clientTlsCert ∧
      c.clientTlsCert ≠ consenter.serverTlsCert ∧
      c.serverTlsCert ≠ consenter.serverTlsCert) :
    ∃ bs1 bs2,
      addConsenterMutator consenter bs = some bs1 ∧
      removeConsenterMutator certificate bs1 = some bs2 ∧
      unmarshalMetadata bs2 = some cs := by
  refine ⟨marshalMetadata (cs ++ [consenter]), marshalMetadata cs, ?_, ?_, ?_⟩
  · rw [addConsenterMutator, hdec]
  · rw [removeConsenterMutator, unmarshalMetadata_marshalMetadata]
    show some (marshalMetadata (removeMatching certificate (cs ++ [consenter]))) =
      some (marshalMetadata cs)
    rw [removeMatching_append]
    have hcs : removeMatching certificate cs = cs := by
      refine removeMatching_of_no_match certificate cs fun c hc => ?_
      rcases hcert with h | h <;> rw [h]
      · exact ⟨(hdisj c hc).1, (hdisj c hc).2.1⟩
      · exact ⟨(hdisj c hc).2.2.1, (hdisj c hc).2.2.2⟩
    have hone : removeMatching certificate [consenter] = [] := by
      rw [removeMatching,
        if_pos (by rcases hcert with h | h; exacts [Or.inl h.symm, Or.inr h.symm]),
        removeMatching]
    rw [hcs, hone, List.append_nil]
  · exact unmarshalMetadata_marshalMetadata _

theorem addThenRemove_roundtrip_witness :
    unmarshalMetadata (marshalMetadata [⟨[104, 48], 7050, [10, 1], [20, 1]⟩]) =
      some [⟨[104, 48], 7050, [10, 1], [20, 1]⟩] ∧
    ∃ bs1 bs2,
      addConsenterMutator ⟨[104, 51], 7053, [10, 4], [20, 4]⟩
          (marshalMetadata [⟨[104, 48], 7050, [10, 1], [20, 1]⟩]) = some bs1 ∧
      removeConsenterMutator [20, 4] bs1 = some bs2 ∧
      unmarshalMetadata bs2 = some [⟨[104, 48], 7050, [10, 1], [20, 1]⟩] :=
  ⟨by decide, addThenRemove_roundtrip _ [20, 4] _ ⟨[104, 51], 7053, [10, 4], [20, 4]⟩
    (by decide) (by decide) (by decide)⟩

/-- C5 counterexample: the envelope built by the update flow carries no
signature at all, because the local signer passed to the envelope builder is
nil (configblock.go line 86); so it does not contain a first signature
produced by a primary signer. -/
theorem updateConfig_envelope_no_first_signature :
    (updateConfigSignedEnvelope (fun s p => s :: p) "testchannel" [1, 2, 3]).signatures
      = [] := rfl

/-- C5 (amended): the envelope built before submission carries header type
CONFIG_UPDATE, the channel identifier, message version 0 and epoch 0, but —
the local signer being nil — an empty signature list; signatures are added
only by the subsequent signer sessions. -/
theorem updateConfig_envelope_header_fields (signFn : Nat → List Nat → List Nat)
    (channel : String) (configUpdate : List Nat) :
    (updateConfigSignedEnvelope signFn channel configUpdate).headerType =
        HeaderType_CONFIG_UPDATE ∧
    (updateConfigSignedEnvelope signFn channel configUpdate).channelId = channel ∧
    (updateConfigSignedEnvelope signFn channel configUpdate).msgVersion = 0 ∧
    (updateConfigSignedEnvelope signFn channel configUpdate).epoch = 0 ∧
    (updateConfigSignedEnvelope signFn channel configUpdate).payload = configUpdate ∧
    (updateConfigSignedEnvelope signFn channel configUpdate).signatures = [] :=
  ⟨rfl, rfl, rfl, rfl, rfl, rfl⟩

/-- C6: the update flow requests a co-signature from each additional signer
in the listed order, the envelope is submitted only after every signing step
has completed, and a failing signing step aborts the flow before any
submission. -/
theorem updateConfig_signing_precedes_submission
    (signOk : Nat → Bool) (signers : List Nat) :
    ((∀ s ∈ signers, signOk s = true) →
      updateConfigFlowEvents signOk signers =
        signers.map FlowEvent.signRequest ++
          [FlowEvent.fetchBaseline, FlowEvent.submit, FlowEvent.awaitCommitStep]) ∧
    ((∃ s ∈ signers, signOk s = false) →
      FlowEvent.submit ∉ updateConfigFlowEvents signOk signers) := by
  constructor
  · intro h
    simp [updateConfigFlowEvents, runAdditionalSigners_all_ok signOk signers h]
  · intro h
    have hfail := runAdditionalSigners_fail signOk signers h
    simp only [updateConfigFlowEvents, hfail, if_false, Bool.false_eq_true]
    intro hmem
    obtain ⟨s, hs⟩ := runAdditionalSigners_events signOk signers _ hmem
    exact FlowEvent.noConfusion hs

theorem updateConfig_signing_precedes_submission_witness :
    updateConfigFlowEvents (fun _ => true) [4, 5] =
      [4, 5].map FlowEvent.signRequest ++
        [FlowEvent.fetchBaseline, FlowEvent.submit, FlowEvent.awaitCommitStep] :=
  (updateConfig_signing_precedes_submission (fun _ => true) [4, 5]).1 (by simp)

/-- C7: the commit-confirmation step takes the block number of the config
block fetched before submission as the baseline, succeeds exactly when some
subsequently observed config block number is strictly greater than that
baseline, depends only on the observed block numbers and never on block
content, and in the flow the baseline fetch happens right before the
submission. -/
theorem commitWatcher_strict_baseline_advance
    (baselineBlock : Block) (observations : List Block) :
    ((∃ n, updateConfigCommitConfirm baselineBlock observations = some n) ↔
      ∃ b ∈ observations, currentConfigBlockNumber baselineBlock < b.header.number) ∧
    (∀ observations2 : List Block,
      observations.map (fun b => b.header.number) =
        observations2.map (fun b => b.header.number) →
      updateConfigCommitConfirm baselineBlock observations =
        updateConfigCommitConfirm baselineBlock observations2) ∧
    (∀ (signOk : Nat → Bool) (signers : List Nat),
      FlowEvent.submit ∈ updateConfigFlowEvents signOk signers →
      ∃ pre, updateConfigFlowEvents signOk signers =
        pre ++ [FlowEvent.fetchBaseline, FlowEvent.submit, FlowEvent.awaitCommitStep]) := by
  refine ⟨?_, ?_, ?_⟩
  · rw [updateConfigCommitConfirm]
    induction observations with
    | nil => simp [awaitConfigBlockPast]
    | cons b rest ih =>
      rw [awaitConfigBlockPast]
      by_cases hc : currentConfigBlockNumber baselineBlock < currentConfigBlockNumber b
      · simp only [if_pos hc]
        constructor
        · intro _; exact ⟨b, by simp, hc⟩
        · intro _; exact ⟨currentConfigBlockNumber b, rfl⟩
      · simp only [if_neg hc]
        rw [ih]
        constructor
        · rintro ⟨x, hx, hxn⟩; exact ⟨x, by simp [hx], hxn⟩
        · rintro ⟨x, hx, hxn⟩
          rcases List.mem_cons.mp hx with h1 | h1
          · subst h1; exact absurd hxn hc
          · exact ⟨x, h1, hxn⟩
  · intro observations2 hmap
    rw [updateConfigCommitConfirm, updateConfigCommitConfirm]
    induction observations generalizing observations2 with
    | nil =>
      have : observations2 = [] := by simpa using List.map_eq_nil_iff.mp hmap.symm
      rw [this]
    | cons b rest ih =>
      match observations2 with
      | [] => simp at hmap
      | b2 :: rest2 =>
        simp only [List.map_cons, List.cons.injEq] at hmap
        rw [awaitConfigBlockPast, awaitConfigBlockPast]
        simp only [currentConfigBlockNumber] at ih ⊢
        rw [hmap.1, ih rest2 hmap.2]
  · intro signOk signers hmem
    by_cases hok : (runAdditionalSigners signOk signers).2 = true
    · exact ⟨(runAdditionalSigners signOk signers).1,
        by simp [updateConfigFlowEvents, hok]⟩
    · exfalso
      simp only [updateConfigFlowEvents, hok, if_false, Bool.false_eq_true] at hmem
      obtain ⟨s, hs⟩ := runAdditionalSigners_events signOk signers _ hmem
      exact FlowEvent.noConfusion hs

theorem commitWatcher_strict_baseline_advance_witness :
    updateConfigCommitConfirm ⟨⟨5, [], []⟩, []⟩ [⟨⟨6, [], []⟩, [[1]]⟩] =
      updateConfigCommitConfirm ⟨⟨5, [], []⟩, []⟩ [⟨⟨6, [], []⟩, [[2]]⟩] :=
  (commitWatcher_strict_baseline_advance ⟨⟨5, [], []⟩, []⟩
    [⟨⟨6, [], []⟩, [[1]]⟩]).2.1 [⟨⟨6, [], []⟩, [[2]]⟩] rfl

theorem ConfigGroup.version_setValue (g : ConfigGroup) (k : String) (v : ConfigValue) :
    (g.setValue k v).version = g.version := by cases g; rfl

theorem ConfigGroup.groups_setValue (g : ConfigGroup) (k : String) (v : ConfigValue) :
    (g.setValue k v).groups = g.groups := by cases g; rfl

theorem ConfigGroup.values_setValue (g : ConfigGroup) (k : String) (v : ConfigValue) :
    (g.setValue k v).values = setStr g.values k v := by cases g; rfl

theorem ConfigGroup.policies_setValue (g : ConfigGroup) (k : String) (v : ConfigValue) :
    (g.setValue k v).policies = g.policies := by cases g; rfl

theorem ConfigGroup.modPolicy_setValue (g : ConfigGroup) (k : String) (v : ConfigValue) :
    (g.setValue k v).modPolicy = g.modPolicy := by cases g; rfl

theorem ConfigGroup.version_setGroup (g : ConfigGroup) (k : String) (sub : ConfigGroup) :
    (g.setGroup k sub).version = g.version := by cases g; rfl

theorem ConfigGroup.groups_setGroup (g : ConfigGroup) (k : String) (sub : ConfigGroup) :
    (g.setGroup k sub).groups = setStr g.groups k sub := by cases g; rfl

theorem ConfigGroup.values_setGroup (g : ConfigGroup) (k : String) (sub : ConfigGroup) :
    (g.setGroup k sub).values = g.values := by cases g; rfl

theorem ConfigGroup.policies_setGroup (g : ConfigGroup) (k : String) (sub : ConfigGroup) :
    (g.setGroup k sub).policies = g.policies := by cases g; rfl

theorem ConfigGroup.modPolicy_setGroup (g : ConfigGroup) (k : String) (sub : ConfigGroup) :
    (g.setGroup k sub).modPolicy = g.modPolicy := by cases g; rfl

/-- C8: when the nested sub-document cannot be decoded — the consensus-type
value of the Orderer group, or (for the built-in mutators) the consenter
metadata — the whole update aborts with a decode failure before any signing
or submission, and no mutated tree is handed on. -/
theorem updateConsensusMetadata_decode_failure_aborts
    (config : Config) (mutator : List Nat → Option (List Nat))
    (signOk : Nat → Bool) (signers : List Nat)
    (ordererGroup : ConfigGroup) (cv : ConfigValue)
    (hg : lookupStr config.channelGroup.groups "Orderer" = some ordererGroup)
    (hv : lookupStr ordererGroup.values "ConsensusType" = some cv)
    (hfail : unmarshalConsensusType cv.value = none ∨
      ∃ ctv, unmarshalConsensusType cv.value = some ctv ∧ mutator ctv.metadata = none) :
    updateConsensusMetadataFlow config mutator signOk signers = ([], none) ∧
    (∀ (bs : List Nat) (c : Consenter) (certificate : List Nat),
      unmarshalMetadata bs = none →
        addConsenterMutator c bs = none ∧
        removeConsenterMutator certificate bs = none) := by
  have hupd : updateConsensusMetadata config mutator = none := by
    rcases hfail with hnone | ⟨ctv, hctv, hmut⟩
    · simp only [updateConsensusMetadata, hg, hv, hnone]
    · simp only [updateConsensusMetadata, hg, hv, hctv, hmut]
  refine ⟨by simp only [updateConsensusMetadataFlow, hupd], ?_⟩
  intro bs c certificate hbs
  exact ⟨by simp only [addConsenterMutator, hbs],
    by simp only [removeConsenterMutator, hbs]⟩

def badConsensusValue : ConfigValue := ⟨3, [200], "Admins"⟩

def badOrdererGroup : ConfigGroup := .mk 1 [] [("ConsensusType", badConsensusValue)] [] "Admins"

def badConfig : Config := ⟨9, .mk 0 [("Orderer", badOrdererGroup)] [] [] "Admins"⟩

theorem updateConsensusMetadata_decode_failure_aborts_witness :
    lookupStr badConfig.channelGroup.groups "Orderer" = some badOrdererGroup ∧
    lookupStr badOrdererGroup.values "ConsensusType" = some badConsensusValue ∧
    unmarshalConsensusType badConsensusValue.value = none ∧
    (updateConsensusMetadataFlow badConfig (fun bs => some bs) (fun _ => true) [1] =
        ([], none) ∧
      ∀ (bs : List Nat) (c : Consenter) (certificate : List Nat),
        unmarshalMetadata bs = none →
          addConsenterMutator c bs = none ∧
          removeConsenterMutator certificate bs = none) :=
  ⟨rfl, rfl, rfl,
    updateConsensusMetadata_decode_failure_aborts badConfig (fun bs => some bs)
      (fun _ => true) [1] badOrdererGroup badConsensusValue rfl rfl (Or.inl rfl)⟩

/-- C9: the pair handed to the diff-and-submit flow has as its first
component the fetched snapshot itself: the mutation happens only on the
clone, and the current tree is never mutated in place. -/
theorem updateConsensusMetadata_preserves_snapshot (config : Config)
    (mutator : List Nat → Option (List Nat)) (cur des : Config)
    (h : updateConsensusMetadata config mutator = some (cur, des)) :
    cur = config := by
  rw [updateConsensusMetadata] at h
  cases hg : lookupStr config.channelGroup.groups "Orderer" with
  | none => simp only [hg] at h; exact Option.noConfusion h
  | some og =>
    simp only [hg] at h
    cases hv : lookupStr og.values "ConsensusType" with
    | none => simp only [hv] at h; exact Option.noConfusion h
    | some cv =>
      simp only [hv] at h
      cases hu : unmarshalConsensusType cv.value with
      | none => simp only [hu] at h; exact Option.noConfusion h
      | some ctv =>
        simp only [hu] at h
        cases hm : mutator ctv.metadata with
        | none => simp only [hm] at h; exact Option.noConfusion h
        | some newMetadata =>
          simp only [hm, Option.some.injEq, Prod.mk.injEq] at h
          exact h.1.symm

def goodConsensusValue : ConfigValue := ⟨4, marshalConsensusType ⟨[101], [9]⟩, "Other"⟩

def goodOrdererGroup : ConfigGroup := .mk 2 [] [("ConsensusType", goodConsensusValue)] [] "MP"

def goodConfig : Config := ⟨7, .mk 1 [("Orderer", goodOrdererGroup)] [] [] "Admins"⟩

def goodDesired : Config :=
  { goodConfig with
      channelGroup := goodConfig.channelGroup.setGroup "Orderer"
        (goodOrdererGroup.setValue "ConsensusType"
          ⟨0, marshalConsensusType ⟨[101], [9]⟩, "Admins"⟩) }

theorem updateConsensusMetadata_preserves_snapshot_witness :
    updateConsensusMetadata goodConfig (fun bs => some bs) =
        some (goodConfig, goodDesired) ∧
    goodConfig = goodConfig :=
  ⟨rfl, updateConsensusMetadata_preserves_snapshot goodConfig (fun bs => some bs)
    goodConfig goodDesired rfl⟩

/-- C10: the desired tree handed to the diff is identical to the current
tree except at the Orderer group's ConsensusType value, and that value is
replaced by a freshly built value whose ModPolicy is the literal "Admins"
and whose Version is zero, regardless of the ModPolicy and Version the
ConsensusType value had in the current configuration. -/
theorem updateConsensusMetadata_frame (config : Config)
    (mutator : List Nat → Option (List Nat)) (cur des : Config)
    (h : updateConsensusMetadata config mutator = some (cur, des)) :
    des.sequence = config.sequence ∧
    des.channelGroup.version = config.channelGroup.version ∧
    des.channelGroup.values = config.channelGroup.values ∧
    des.channelGroup.policies = config.channelGroup.policies ∧
    des.channelGroup.modPolicy = config.channelGroup.modPolicy ∧
    (∀ name : String, name ≠ "Orderer" →
      lookupStr des.channelGroup.groups name = lookupStr config.channelGroup.groups name) ∧
    ∃ og og',
      lookupStr config.channelGroup.groups "Orderer" = some og ∧
      lookupStr des.channelGroup.groups "Orderer" = some og' ∧
      og'.version = og.version ∧
      og'.groups = og.groups ∧
      og'.policies = og.policies ∧
      og'.modPolicy = og.modPolicy ∧
      (∀ vname : String, vname ≠ "ConsensusType" →
        lookupStr og'.values vname = lookupStr og.values vname) ∧
      ∃ cv ctv newMetadata,
        lookupStr og.values "ConsensusType" = some cv ∧
        unmarshalConsensusType cv.value = some ctv ∧
        mutator ctv.metadata = some newMetadata ∧
        lookupStr og'.values "ConsensusType" =
          some ⟨0, marshalConsensusType ⟨ctv.typeName, newMetadata⟩, "Admins"⟩ := by
  rw [updateConsensusMetadata] at h
  cases hg : lookupStr config.channelGroup.groups "Orderer" with
  | none => simp only [hg] at h; exact Option.noConfusion h
  | some og =>
    simp only [hg] at h
    cases hv : lookupStr og.values "ConsensusType" with
    | none => simp only [hv] at h; exact Option.noConfusion h
    | some cv =>
      simp only [hv] at h
      cases hu : unmarshalConsensusType cv.value with
      | none => simp only [hu] at h; exact Option.noConfusion h
      | some ctv =>
        simp only [hu] at h
        cases hm : mutator ctv.metadata with
        | none => simp only [hm] at h; exact Option.noConfusion h
        | some newMetadata =>
          simp only [hm, Option.some.injEq, Prod.mk.injEq] at h
          obtain ⟨-, hdes⟩ := h
          subst hdes
          refine ⟨rfl, ConfigGroup.version_setGroup _ _ _,
            ConfigGroup.values_setGroup _ _ _,
            ConfigGroup.policies_setGroup _ _ _,
            ConfigGroup.modPolicy_setGroup _ _ _, ?_, ?_⟩
          · intro name hname
            rw [ConfigGroup.groups_setGroup, lookupStr_setStr_other _ _ _ _ hname]
          · refine ⟨og, og.setValue "ConsensusType"
              ⟨0, marshalConsensusType ⟨ctv.typeName, newMetadata⟩, "Admins"⟩,
              rfl, ?_, ConfigGroup.version_setValue _ _ _,
              ConfigGroup.groups_setValue _ _ _,
              ConfigGroup.policies_setValue _ _ _,
              ConfigGroup.modPolicy_setValue _ _ _, ?_,
              cv, ctv, newMetadata, hv, hu, hm, ?_⟩
            · rw [ConfigGroup.groups_setGroup]
              exact lookupStr_setStr_same _ _ _
            · intro vname hvname
              rw [ConfigGroup.values_setValue, lookupStr_setStr_other _ _ _ _ hvname]
            · rw [ConfigGroup.values_setValue]
              exact lookupStr_setStr_same _ _ _

def goodDesired2 : Config :=
  { goodConfig with
      channelGroup := goodConfig.channelGroup.setGroup "Orderer"
        (goodOrdererGroup.setValue "ConsensusType"
          ⟨0, marshalConsensusType ⟨[101], [9, 7]⟩, "Admins"⟩) }

theorem updateConsensusMetadata_frame_witness :
    updateConsensusMetadata goodConfig (fun bs => some (bs ++ [7])) =
        some (goodConfig, goodDesired2) ∧
    (goodDesired2.sequence = goodConfig.sequence ∧
      goodDesired2.channelGroup.version = goodConfig.channelGroup.version ∧
      goodDesired2.channelGroup.values = goodConfig.channelGroup.values ∧
      goodDesired2.channelGroup.policies = goodConfig.channelGroup.policies ∧
      goodDesired2.channelGroup.modPolicy = goodConfig.channelGroup.modPolicy ∧
      (∀ name : String, name ≠ "Orderer" →
        lookupStr goodDesired2.channelGroup.groups name =
          lookupStr goodConfig.channelGroup.groups name) ∧
      ∃ og og',
        lookupStr goodConfig.channelGroup.groups "Orderer" = some og ∧
        lookupStr goodDesired2.channelGroup.groups "Orderer" = some og' ∧
        og'.version = og.version ∧
        og'.groups = og.groups ∧
        og'.policies = og.policies ∧
        og'.modPolicy = og.modPolicy ∧
        (∀ vname : String, vname ≠ "ConsensusType" →
          lookupStr og'.values vname = lookupStr og.values vname) ∧
        ∃ cv ctv newMetadata,
          lookupStr og.values "ConsensusType" = some cv ∧
          unmarshalConsensusType cv.value = some ctv ∧
          (fun bs => some (bs ++ [7])) ctv.metadata = some newMetadata ∧
          lookupStr og'.values "ConsensusType" =
            some ⟨0, marshalConsensusType ⟨ctv.typeName, newMetadata⟩, "Admins"⟩) :=
  ⟨rfl, updateConsensusMetadata_frame goodConfig (fun bs => some (bs ++ [7]))
    goodConfig goodDesired2 rfl⟩

end ConfigBlock
